import Mathlib

/-!
Verification of the SLIP codec in `src/slip.rs` of noalloc-slip-rs.

The codec operates over a bounded-capacity byte vector (`noalloc_vec_rs::vec::Vec`),
an external collaborator whose contract the specification fixes: capacity-checked
`insert`/`write`/`push`, `len`, `clear`, indexed read and slice view, all failing
explicitly when capacity is exhausted.  Bytes are modelled as `Nat` (the codec only
ever compares bytes for equality against protocol constants, so no arithmetic on
byte values occurs).  Fallible in-place mutation is modelled by returning the new
vector in `Option` (a failed operation leaves the vector unchanged), and the
in-place mutating codec entry points return the final buffer state on both success
and failure.
-/

namespace NoallocSlip

/-- `END_CHAR` protocol constant (`src/slip.rs` line 12). -/
def END_CHAR : Nat := 0xC0

/-- `ESC_CHAR` protocol constant (`src/slip.rs` line 13). -/
def ESC_CHAR : Nat := 0xDB

/-- `ESC_END_CHAR` protocol constant (`src/slip.rs` line 14). -/
def ESC_END_CHAR : Nat := 0xDC

/-- `ESC_ESC_CHAR` protocol constant (`src/slip.rs` line 15). -/
def ESC_ESC_CHAR : Nat := 0xDD

/-- Modelled from the spec: the bounded buffer collaborator
(`noalloc_vec_rs::vec::Vec<u8, MAX_LENGTH>`, not part of this repository).
"An ordered sequence of bytes with a fixed maximum capacity `MAX_LENGTH` fixed at
construction/compile time. Invariant: `0 <= length <= MAX_LENGTH` always."
`cap` is the const generic `MAX_LENGTH`; `data` the current contents. -/
structure Vec where
  data : List Nat
  cap : Nat
deriving DecidableEq, Repr

namespace Vec

/-- Modelled from the spec: `insert(index, byte)` "shifts elements at/after `index`
right by one, fails if full"; the index must be at most the current length. -/
def insert (v : Vec) (index : Nat) (value : Nat) : Option Vec :=
  if index ≤ v.data.length ∧ v.data.length < v.cap then
    some { v with data := v.data.take index ++ value :: v.data.drop index }
  else
    none

/-- Modelled from the spec: `write(index, byte)` "overwrites an existing slot,
requires `index < length`". -/
def write (v : Vec) (index : Nat) (value : Nat) : Option Vec :=
  if index < v.data.length then
    some { v with data := v.data.set index value }
  else
    none

/-- Modelled from the spec: `push(byte)` "append, fails if full". -/
def push (v : Vec) (value : Nat) : Option Vec :=
  if v.data.length < v.cap then
    some { v with data := v.data ++ [value] }
  else
    none

/-- Modelled from the spec: `clear()` empties the buffer, keeping its capacity. -/
def clear (v : Vec) : Vec :=
  { v with data := [] }

end Vec

/-- Number of bytes of a payload that the encoder must escape
(occurrences of `END_CHAR` or `ESC_CHAR`); the `k` of the framing property. -/
def escCount : List Nat → Nat
  | [] => 0
  | b :: r => (if b = END_CHAR ∨ b = ESC_CHAR then 1 else 0) + escCount r

/-- The byte-wise SLIP escape expansion of a payload: `END_CHAR` becomes
`ESC_CHAR ESC_END_CHAR`, `ESC_CHAR` becomes `ESC_CHAR ESC_ESC_CHAR`, and any
other byte passes through unchanged. -/
def escBytes : List Nat → List Nat
  | [] => []
  | b :: r =>
    if b = END_CHAR then ESC_CHAR :: ESC_END_CHAR :: escBytes r
    else if b = ESC_CHAR then ESC_CHAR :: ESC_ESC_CHAR :: escBytes r
    else b :: escBytes r

/-- A byte sequence contains no unescaped `END_CHAR`/`ESC_CHAR`: every
`ESC_CHAR` is immediately followed by `ESC_END_CHAR` or `ESC_ESC_CHAR`, and no
other byte is `END_CHAR`. -/
def properlyEscaped : List Nat → Bool
  | [] => true
  | b :: r =>
    if b = ESC_CHAR then
      match r with
      | [] => false
      | c :: r2 => decide (c = ESC_END_CHAR ∨ c = ESC_ESC_CHAR) && properlyEscaped r2
    else
      decide (b ≠ END_CHAR) && properlyEscaped r

/-- `SlipEncoder::encode`, the escaping loop (`src/slip.rs` lines 39-56): scan
forward from `index`; an `END_CHAR` byte becomes `ESC_CHAR ESC_END_CHAR` and an
`ESC_CHAR` byte becomes `ESC_CHAR ESC_ESC_CHAR` (insert `ESC_CHAR` at the current
position, overwrite the following slot); other bytes are skipped.  On a failed
vector operation the `?` operator aborts, leaving the buffer in its current,
partially transformed state, which the error value carries. -/
def encodeLoop (v : Vec) (index : Nat) : Except Vec Vec :=
  if hlt : index < v.data.length then
    if v.data[index] = END_CHAR then
      match h1 : v.insert index ESC_CHAR with
      | none => .error v
      | some v1 =>
        match h2 : v1.write (index + 1) ESC_END_CHAR with
        | none => .error v1
        | some v2 => encodeLoop v2 (index + 2)
    else if v.data[index] = ESC_CHAR then
      match h1 : v.insert index ESC_CHAR with
      | none => .error v
      | some v1 =>
        match h2 : v1.write (index + 1) ESC_ESC_CHAR with
        | none => .error v1
        | some v2 => encodeLoop v2 (index + 2)
    else
      encodeLoop v (index + 1)
  else
    .ok v
termination_by v.data.length - index
decreasing_by
  · have e1 : v1.data.length = v.data.length + 1 := by
      unfold Vec.insert at h1
      split at h1
      · cases h1
        simp only [List.length_append, List.length_cons, List.length_take,
          List.length_drop]
        omega
      · cases h1
    have e2 : v2.data.length = v1.data.length := by
      unfold Vec.write at h2
      split at h2
      · cases h2
        simp
      · cases h2
    omega
  · have e1 : v1.data.length = v.data.length + 1 := by
      unfold Vec.insert at h1
      split at h1
      · cases h1
        simp only [List.length_append, List.length_cons, List.length_take,
          List.length_drop]
        omega
      · cases h1
    have e2 : v2.data.length = v1.data.length := by
      unfold Vec.write at h2
      split at h2
      · cases h2
        simp
      · cases h2
    omega
  · omega

/-- `SlipEncoder::encode` (`src/slip.rs` lines 35-62): insert `END_CHAR` at
position 0, run the escaping loop from index 1, then insert `END_CHAR` at the end.
`.ok` carries the encoded buffer; `.error` carries the buffer state at the point
the failing vector operation aborted the function. -/
def encode (v : Vec) : Except Vec Vec :=
  match v.insert 0 END_CHAR with
  | none => .error v
  | some v1 =>
    match encodeLoop v1 1 with
    | .error v2 => .error v2
    | .ok v2 =>
      match v2.insert v2.data.length END_CHAR with
      | none => .error v2
      | some v3 => .ok v3

/-- `SlipDecoderState` (`src/slip.rs` lines 66-77). -/
inductive SlipDecoderState where
  | Start
  | End
  | Append
  | Escape
deriving DecidableEq, Repr

/-- `SlipDecoder` (`src/slip.rs` lines 82-88): current state plus the bounded
buffer holding the decoded packet. -/
structure SlipDecoder where
  state : SlipDecoderState
  buffer : Vec
deriving DecidableEq, Repr

namespace SlipDecoder

/-- `SlipDecoder::insert` (`src/slip.rs` lines 102-145).  Returns the updated
decoder together with `true` for `Ok(())` and `false` for `Err(())`; the decoder
component reflects the partial transition performed before a failure (in the
`Escape` arm the state is set to `Append` before the escape byte is examined). -/
def insert (d : SlipDecoder) (value : Nat) : SlipDecoder × Bool :=
  match d.state with
  | .Start =>
    if value = END_CHAR then
      ({ d with state := .Append }, true)
    else
      (d, true)
  | .Append =>
    if value = END_CHAR then
      ({ d with state := .End }, true)
    else if value = ESC_CHAR then
      ({ d with state := .Escape }, true)
    else
      match d.buffer.push value with
      | none => (d, false)
      | some b => ({ d with buffer := b }, true)
  | .Escape =>
    let d1 : SlipDecoder := { d with state := .Append }
    if value = ESC_END_CHAR then
      match d1.buffer.push END_CHAR with
      | none => (d1, false)
      | some b => ({ d1 with buffer := b }, true)
    else if value = ESC_ESC_CHAR then
      match d1.buffer.push ESC_CHAR with
      | none => (d1, false)
      | some b => ({ d1 with buffer := b }, true)
    else
      (d1, false)
  | .End => (d, false)

/-- `SlipDecoder::reset` (`src/slip.rs` lines 148-151). -/
def reset (d : SlipDecoder) : SlipDecoder :=
  { state := .Start, buffer := d.buffer.clear }

/-- `SlipDecoder::is_buffer_completed` (`src/slip.rs` lines 160-162). -/
def isBufferCompleted (d : SlipDecoder) : Bool :=
  d.state = SlipDecoderState.End

/-- `SlipDecoder::get_buffer` (`src/slip.rs` lines 170-172): the slice view of the
internal buffer. -/
def getBuffer (d : SlipDecoder) : List Nat :=
  d.buffer.data

/-- The `Deref` implementation for `SlipDecoder` (`src/slip.rs` lines 176-182),
which forwards to `get_buffer`. -/
def derefBuffer (d : SlipDecoder) : List Nat :=
  d.getBuffer

/-- Feeding a byte sequence one byte at a time: runs `insert` on each byte in
order, stopping at the first failure (returning the decoder at that point). -/
def insertAll (d : SlipDecoder) : List Nat → SlipDecoder × Bool
  | [] => (d, true)
  | b :: rest =>
    match d.insert b with
    | (d1, true) => d1.insertAll rest
    | (d1, false) => (d1, false)

end SlipDecoder

/-! ## Helper lemmas -/

theorem get_append_mid (l₁ l₂ : List Nat) (b : Nat)
    (h : l₁.length < (l₁ ++ b :: l₂).length) :
    (l₁ ++ b :: l₂)[l₁.length] = b := by
  simp [List.getElem_append_right]

theorem set_append_mid (l₁ l₂ : List Nat) (b x : Nat) :
    (l₁ ++ b :: l₂).set l₁.length x = l₁ ++ x :: l₂ := by
  simp [List.set_append]

theorem escBytes_length (p : List Nat) :
    (escBytes p).length = p.length + escCount p := by
  induction p with
  | nil => simp [escBytes, escCount]
  | cons b r ih =>
    by_cases hb : b = END_CHAR
    · simp [escBytes, escCount, END_CHAR, ESC_CHAR, hb, ih]; omega
    · by_cases hb2 : b = ESC_CHAR
      · simp [escBytes, escCount, END_CHAR, ESC_CHAR, hb, hb2, ih]; omega
      · simp [escBytes, escCount, hb, hb2, ih]; omega

/-! ## Encoder correctness -/

theorem encodeLoop_ok (cap : Nat) (rest : List Nat) : ∀ (done : List Nat),
    done.length + rest.length + escCount rest ≤ cap →
    encodeLoop ⟨done ++ rest, cap⟩ done.length = .ok ⟨done ++ escBytes rest, cap⟩ := by
  induction rest with
  | nil =>
    intro done hcap
    rw [encodeLoop.eq_def]
    simp [escBytes]
  | cons b r ih =>
    intro done hcap
    rw [encodeLoop.eq_def]
    by_cases hb : b = END_CHAR
    · subst hb
      have hc' : done.length + (1 + r.length) + (1 + escCount r) ≤ cap := by
        simp only [escCount, List.length_cons] at hcap
        simp at hcap
        omega
      have h1 : Vec.insert ⟨done ++ END_CHAR :: r, cap⟩ done.length ESC_CHAR
          = some ⟨done ++ ESC_CHAR :: END_CHAR :: r, cap⟩ := by
        unfold Vec.insert
        rw [if_pos]
        · simp [List.take_left, List.drop_left]
        · refine ⟨by simp, ?_⟩
          simp only [List.length_append, List.length_cons]
          omega
      have h2 : Vec.write ⟨done ++ ESC_CHAR :: END_CHAR :: r, cap⟩ (done.length + 1) ESC_END_CHAR
          = some ⟨done ++ ESC_CHAR :: ESC_END_CHAR :: r, cap⟩ := by
        unfold Vec.write
        rw [if_pos]
        · have heq : done ++ ESC_CHAR :: END_CHAR :: r = (done ++ [ESC_CHAR]) ++ END_CHAR :: r := by
            simp
          simp only [heq]
          have h3 := set_append_mid (done ++ [ESC_CHAR]) r END_CHAR ESC_END_CHAR
          simp only [List.length_append, List.length_cons, List.length_nil] at h3 ⊢
          simp at h3 ⊢
        · simp only [List.length_append, List.length_cons]
          omega
      split
      · rename_i hlt
        simp only [get_append_mid, if_true]
        split
        · rename_i heq
          rw [h1] at heq
          cases heq
        · rename_i v1 heq
          rw [h1] at heq
          injection heq with hv1
          subst hv1
          split
          · rename_i heq2
            rw [h2] at heq2
            cases heq2
          · rename_i v2 heq2
            rw [h2] at heq2
            injection heq2 with hv2
            subst hv2
            have hsplit : done ++ ESC_CHAR :: ESC_END_CHAR :: r
                = (done ++ [ESC_CHAR, ESC_END_CHAR]) ++ r := by simp
            have hidx : done.length + 2 = (done ++ [ESC_CHAR, ESC_END_CHAR]).length := by simp
            rw [hsplit, hidx, ih (done ++ [ESC_CHAR, ESC_END_CHAR]) (by simp; omega)]
            simp [escBytes, END_CHAR]
      · rename_i hge
        exfalso
        apply hge
        simp
    · by_cases hb2 : b = ESC_CHAR
      · subst hb2
        have hc' : done.length + (1 + r.length) + (1 + escCount r) ≤ cap := by
          simp only [escCount, List.length_cons] at hcap
          simp [ESC_CHAR, END_CHAR] at hcap
          omega
        have h1 : Vec.insert ⟨done ++ ESC_CHAR :: r, cap⟩ done.length ESC_CHAR
            = some ⟨done ++ ESC_CHAR :: ESC_CHAR :: r, cap⟩ := by
          unfold Vec.insert
          rw [if_pos]
          · simp [List.take_left, List.drop_left]
          · refine ⟨by simp, ?_⟩
            simp only [List.length_append, List.length_cons]
            omega
        have h2 : Vec.write ⟨done ++ ESC_CHAR :: ESC_CHAR :: r, cap⟩ (done.length + 1) ESC_ESC_CHAR
            = some ⟨done ++ ESC_CHAR :: ESC_ESC_CHAR :: r, cap⟩ := by
          unfold Vec.write
          rw [if_pos]
          · have heq : done ++ ESC_CHAR :: ESC_CHAR :: r = (done ++ [ESC_CHAR]) ++ ESC_CHAR :: r := by
              simp
            simp only [heq]
            have h3 := set_append_mid (done ++ [ESC_CHAR]) r ESC_CHAR ESC_ESC_CHAR
            simp only [List.length_append, List.length_cons, List.length_nil] at h3 ⊢
            simp at h3 ⊢
          · simp only [List.length_append, List.length_cons]
            omega
        split
        · rename_i hlt
          simp only [get_append_mid, if_true]
          rw [if_neg hb]
          split
          · rename_i heq
            rw [h1] at heq
            cases heq
          · rename_i v1 heq
            rw [h1] at heq
            injection heq with hv1
            subst hv1
            split
            · rename_i heq2
              rw [h2] at heq2
              cases heq2
            · rename_i v2 heq2
              rw [h2] at heq2
              injection heq2 with hv2
              subst hv2
              have hsplit : done ++ ESC_CHAR :: ESC_ESC_CHAR :: r
                  = (done ++ [ESC_CHAR, ESC_ESC_CHAR]) ++ r := by simp
              have hidx : done.length + 2 = (done ++ [ESC_CHAR, ESC_ESC_CHAR]).length := by simp
              rw [hsplit, hidx, ih (done ++ [ESC_CHAR, ESC_ESC_CHAR]) (by simp; omega)]
              simp [escBytes, END_CHAR, ESC_CHAR]
        · rename_i hge
          exfalso
          apply hge
          simp
      · have hc' : done.length + (1 + r.length) + escCount r ≤ cap := by
          simp only [escCount, List.length_cons] at hcap
          rw [if_neg (by tauto)] at hcap
          simp at hcap
          omega
        split
        · rename_i hlt
          simp only [get_append_mid]
          rw [if_neg hb, if_neg hb2]
          have hsplit : done ++ b :: r = (done ++ [b]) ++ r := by simp
          have hidx : done.length + 1 = (done ++ [b]).length := by simp
          rw [hsplit, hidx, ih (done ++ [b]) (by simp; omega)]
          simp [escBytes, hb, hb2]
        · rename_i hge
          exfalso
          apply hge
          simp

theorem encode_ok (cap : Nat) (p : List Nat)
    (hcap : p.length + 2 + escCount p ≤ cap) :
    encode ⟨p, cap⟩ = .ok ⟨END_CHAR :: escBytes p ++ [END_CHAR], cap⟩ := by
  have h1 : Vec.insert ⟨p, cap⟩ 0 END_CHAR = some ⟨END_CHAR :: p, cap⟩ := by
    unfold Vec.insert
    rw [if_pos ⟨Nat.zero_le _, by simp only []; omega⟩]
    simp
  have h2 := encodeLoop_ok cap p [END_CHAR] (by simp only [List.length_cons, List.length_nil]; omega)
  simp only [List.singleton_append, List.length_cons, List.length_nil, Nat.zero_add] at h2
  have h3 : Vec.insert ⟨END_CHAR :: escBytes p, cap⟩ (END_CHAR :: escBytes p).length END_CHAR
      = some ⟨(END_CHAR :: escBytes p) ++ [END_CHAR], cap⟩ := by
    unfold Vec.insert
    rw [if_pos ⟨Nat.le_refl _, by simp only [List.length_cons, escBytes_length]; omega⟩]
    simp
  unfold encode
  simp only [h1, h2, h3]

/-! ## Decoder step lemmas -/

namespace SlipDecoder

theorem insert_Start_end (buf : Vec) :
    insert ⟨.Start, buf⟩ END_CHAR = (⟨.Append, buf⟩, true) := by
  simp [insert]

theorem insert_Start_other (buf : Vec) (v : Nat) (h : v ≠ END_CHAR) :
    insert ⟨.Start, buf⟩ v = (⟨.Start, buf⟩, true) := by
  simp [insert, h]

theorem insert_Append_end (buf : Vec) :
    insert ⟨.Append, buf⟩ END_CHAR = (⟨.End, buf⟩, true) := by
  simp [insert]

theorem insert_Append_esc (buf : Vec) :
    insert ⟨.Append, buf⟩ ESC_CHAR = (⟨.Escape, buf⟩, true) := by
  simp [insert, END_CHAR, ESC_CHAR]

theorem insert_Append_other (data : List Nat) (cap : Nat) (v : Nat)
    (h1 : v ≠ END_CHAR) (h2 : v ≠ ESC_CHAR) (hroom : data.length < cap) :
    insert ⟨.Append, ⟨data, cap⟩⟩ v = (⟨.Append, ⟨data ++ [v], cap⟩⟩, true) := by
  simp [insert, h1, h2, Vec.push, hroom]

theorem insert_Append_full (data : List Nat) (cap : Nat) (v : Nat)
    (h1 : v ≠ END_CHAR) (h2 : v ≠ ESC_CHAR) (hfull : ¬ data.length < cap) :
    insert ⟨.Append, ⟨data, cap⟩⟩ v = (⟨.Append, ⟨data, cap⟩⟩, false) := by
  simp [insert, h1, h2, Vec.push, hfull]

theorem insert_Escape_escEnd (data : List Nat) (cap : Nat)
    (hroom : data.length < cap) :
    insert ⟨.Escape, ⟨data, cap⟩⟩ ESC_END_CHAR
      = (⟨.Append, ⟨data ++ [END_CHAR], cap⟩⟩, true) := by
  simp [insert, Vec.push, hroom]

theorem insert_Escape_escEsc (data : List Nat) (cap : Nat)
    (hroom : data.length < cap) :
    insert ⟨.Escape, ⟨data, cap⟩⟩ ESC_ESC_CHAR
      = (⟨.Append, ⟨data ++ [ESC_CHAR], cap⟩⟩, true) := by
  simp [insert, Vec.push, hroom, ESC_END_CHAR, ESC_ESC_CHAR]

theorem insert_Escape_invalid (buf : Vec) (v : Nat)
    (h1 : v ≠ ESC_END_CHAR) (h2 : v ≠ ESC_ESC_CHAR) :
    insert ⟨.Escape, buf⟩ v = (⟨.Append, buf⟩, false) := by
  simp [insert, h1, h2]

theorem insert_End (buf : Vec) (v : Nat) :
    insert ⟨.End, buf⟩ v = (⟨.End, buf⟩, false) := by
  simp [insert]

theorem insertAll_append (xs ys : List Nat) : ∀ (d d1 : SlipDecoder),
    insertAll d xs = (d1, true) →
    insertAll d (xs ++ ys) = insertAll d1 ys := by
  induction xs with
  | nil =>
    intro d d1 h
    simp [insertAll] at h
    simp [h]
  | cons b r ih =>
    intro d d1 h
    simp only [insertAll] at h ⊢
    match hstep : d.insert b with
    | (d2, true) =>
      rw [hstep] at h
      simp only [List.cons_append]
      exact ih d2 d1 h
    | (d2, false) =>
      rw [hstep] at h
      cases h

theorem insertAll_escBytes (cap : Nat) (p : List Nat) : ∀ (acc : List Nat),
    acc.length + p.length ≤ cap →
    insertAll ⟨.Append, ⟨acc, cap⟩⟩ (escBytes p)
      = (⟨.Append, ⟨acc ++ p, cap⟩⟩, true) := by
  induction p with
  | nil =>
    intro acc h
    simp [escBytes, insertAll]
  | cons b r ih =>
    intro acc h
    have hroom : acc.length < cap := by
      simp only [List.length_cons] at h
      omega
    have hlen : (acc ++ [b]).length + r.length ≤ cap := by
      simp only [List.length_append, List.length_cons, List.length_nil] at h ⊢
      omega
    by_cases hb : b = END_CHAR
    · subst hb
      rw [show escBytes (END_CHAR :: r) = ESC_CHAR :: ESC_END_CHAR :: escBytes r by
        simp [escBytes]]
      simp only [insertAll, insert_Append_esc, insert_Escape_escEnd acc cap hroom]
      simpa using ih (acc ++ [END_CHAR]) hlen
    · by_cases hb2 : b = ESC_CHAR
      · subst hb2
        rw [show escBytes (ESC_CHAR :: r) = ESC_CHAR :: ESC_ESC_CHAR :: escBytes r by
          simp [escBytes, END_CHAR, ESC_CHAR]]
        simp only [insertAll, insert_Append_esc, insert_Escape_escEsc acc cap hroom]
        simpa using ih (acc ++ [ESC_CHAR]) hlen
      · rw [show escBytes (b :: r) = b :: escBytes r by simp [escBytes, hb, hb2]]
        simp only [insertAll, insert_Append_other acc cap b hb hb2 hroom]
        simpa using ih (acc ++ [b]) hlen

theorem decode_frame (cap : Nat) (p : List Nat) (hcap : p.length ≤ cap) :
    insertAll ⟨.Start, ⟨[], cap⟩⟩ (END_CHAR :: escBytes p ++ [END_CHAR])
      = (⟨.End, ⟨p, cap⟩⟩, true) := by
  have h0 : insertAll ⟨.Start, ⟨[], cap⟩⟩ (END_CHAR :: escBytes p ++ [END_CHAR])
      = insertAll ⟨.Append, ⟨[], cap⟩⟩ (escBytes p ++ [END_CHAR]) := by
    simp only [insertAll, insert_Start_end, List.append_eq]
  rw [h0]
  have h1 := insertAll_escBytes cap p [] (by simpa using hcap)
  rw [insertAll_append (escBytes p) [END_CHAR] _ _ (by simpa using h1)]
  simp [insertAll, insert_Append_end]

end SlipDecoder


/-! ## Claims -/

theorem properlyEscaped_escBytes (p : List Nat) :
    properlyEscaped (escBytes p) = true := by
  induction p with
  | nil => simp [escBytes, properlyEscaped]
  | cons b r ih =>
    by_cases hb : b = END_CHAR
    · simp [escBytes, hb, properlyEscaped, END_CHAR, ESC_CHAR, ESC_END_CHAR,
        ESC_ESC_CHAR, ih]
    · by_cases hb2 : b = ESC_CHAR
      · simp [escBytes, hb, hb2, properlyEscaped, END_CHAR, ESC_CHAR, ESC_END_CHAR,
          ESC_ESC_CHAR, ih]
      · rw [show escBytes (b :: r) = b :: escBytes r by simp [escBytes, hb, hb2]]
        rw [properlyEscaped.eq_def]
        simp [hb, hb2, ih]

/-- Claim C1: round trip — for every payload (including the empty one) that fits
in the decoder capacity, encoding with `SlipEncoder::encode` and feeding the
frame's bytes one at a time into a freshly reset `SlipDecoder` via `insert`
succeeds, ends with `is_buffer_completed() = true`, and leaves the decoder
buffer equal to the original payload. -/
theorem C1_round_trip (ecap dcap : Nat) (s0 : SlipDecoderState) (b0 : List Nat)
    (p : List Nat) (hdec : p.length ≤ dcap)
    (henc : p.length + 2 + escCount p ≤ ecap) :
    ∃ (w : Vec) (d : SlipDecoder),
      encode ⟨p, ecap⟩ = .ok w ∧
      SlipDecoder.insertAll (SlipDecoder.reset ⟨s0, ⟨b0, dcap⟩⟩) w.data = (d, true) ∧
      d.isBufferCompleted = true ∧
      d.getBuffer = p := by
  refine ⟨⟨END_CHAR :: escBytes p ++ [END_CHAR], ecap⟩, ⟨.End, ⟨p, dcap⟩⟩,
    encode_ok ecap p henc, ?_, by simp [SlipDecoder.isBufferCompleted], rfl⟩
  have hreset : SlipDecoder.reset ⟨s0, ⟨b0, dcap⟩⟩
      = (⟨.Start, ⟨[], dcap⟩⟩ : SlipDecoder) := rfl
  rw [hreset]
  exact SlipDecoder.decode_frame dcap p hdec

theorem C1_round_trip_witness :
    (3 : Nat) ≤ 4 ∧ (3 : Nat) + 2 + escCount [0x01, 0xC0, 0xDB] ≤ 10 ∧
    ∃ (w : Vec) (d : SlipDecoder),
      encode ⟨[0x01, 0xC0, 0xDB], 10⟩ = .ok w ∧
      SlipDecoder.insertAll (SlipDecoder.reset ⟨.Append, ⟨[0x07], 4⟩⟩) w.data = (d, true) ∧
      d.isBufferCompleted = true ∧
      d.getBuffer = [0x01, 0xC0, 0xDB] :=
  ⟨by decide, by decide,
    C1_round_trip 10 4 .Append [0x07] [0x01, 0xC0, 0xDB] (by decide) (by decide)⟩

/-- Claim C2: framing — for a payload of length `n` with `k` bytes equal to
`END_CHAR` or `ESC_CHAR`, when the buffer capacity is at least `n + 2 + k`,
`SlipEncoder::encode` succeeds with a frame of exact length `n + 2 + k` that
starts and ends with `END_CHAR` and whose interior contains no unescaped
`END_CHAR`/`ESC_CHAR` (every `ESC_CHAR` is followed by `ESC_END_CHAR` or
`ESC_ESC_CHAR`, and no interior byte is `END_CHAR`). -/
theorem C2_framing (cap : Nat) (p : List Nat)
    (hcap : p.length + 2 + escCount p ≤ cap) :
    ∃ mid : List Nat,
      encode ⟨p, cap⟩ = .ok ⟨END_CHAR :: mid ++ [END_CHAR], cap⟩ ∧
      (END_CHAR :: mid ++ [END_CHAR]).length = p.length + 2 + escCount p ∧
      properlyEscaped mid = true := by
  refine ⟨escBytes p, encode_ok cap p hcap, ?_, properlyEscaped_escBytes p⟩
  simp [escBytes_length]
  omega

theorem C2_framing_witness :
    (2 : Nat) + 2 + escCount [0xC0, 0x01] ≤ 8 ∧
    ∃ mid : List Nat,
      encode ⟨[0xC0, 0x01], 8⟩ = .ok ⟨END_CHAR :: mid ++ [END_CHAR], 8⟩ ∧
      (END_CHAR :: mid ++ [END_CHAR]).length = 2 + 2 + escCount [0xC0, 0x01] ∧
      properlyEscaped mid = true :=
  ⟨by decide, C2_framing 8 [0xC0, 0x01] (by decide)⟩


/-- Claim C3, counterexample: encoding `[0xC0, 0xDB, 0xDC, 0xDD]` with ample
capacity yields the 8-byte frame `[0xC0, 0xDB, 0xDC, 0xDB, 0xDD, 0xDC, 0xDD,
0xC0]` (matching the repository's own `test_encode_with_escape_characters`
test) and NOT the 9-byte sequence `[0xC0, 0xDB, 0xDC, 0xDB, 0xDD, 0xDC, 0xDB,
0xDD, 0xC0]` asserted by the claim, which contains a spurious extra `0xDB`. -/
theorem C3_counterexample :
    encode ⟨[0xC0, 0xDB, 0xDC, 0xDD], 12⟩
      = .ok ⟨[0xC0, 0xDB, 0xDC, 0xDB, 0xDD, 0xDC, 0xDD, 0xC0], 12⟩ ∧
    encode ⟨[0xC0, 0xDB, 0xDC, 0xDD], 12⟩
      ≠ .ok ⟨[0xC0, 0xDB, 0xDC, 0xDB, 0xDD, 0xDC, 0xDB, 0xDD, 0xC0], 12⟩ := by
  have h := encode_ok 12 [0xC0, 0xDB, 0xDC, 0xDD] (by decide)
  rw [h]
  constructor
  · simp only [Except.ok.injEq]
    decide
  · simp only [ne_eq, Except.ok.injEq]
    decide

/-- Claim C3, amended: applying `SlipEncoder::encode` to a buffer containing
exactly `[0xC0, 0xDB, 0xDC, 0xDD]` with sufficient capacity (at least 8)
succeeds and leaves the buffer equal to
`[0xC0, 0xDB, 0xDC, 0xDB, 0xDD, 0xDC, 0xDD, 0xC0]`. -/
theorem C3_amended (cap : Nat) (hcap : 8 ≤ cap) :
    encode ⟨[0xC0, 0xDB, 0xDC, 0xDD], cap⟩
      = .ok ⟨[0xC0, 0xDB, 0xDC, 0xDB, 0xDD, 0xDC, 0xDD, 0xC0], cap⟩ := by
  have h := encode_ok cap [0xC0, 0xDB, 0xDC, 0xDD]
    (by
      simp only [List.length_cons, List.length_nil,
        show escCount [0xC0, 0xDB, 0xDC, 0xDD] = 2 from by decide]
      omega)
  rw [h]
  simp only [Except.ok.injEq, Vec.mk.injEq, and_true]
  decide

theorem C3_amended_witness :
    (8 : Nat) ≤ 12 ∧
    encode ⟨[0xC0, 0xDB, 0xDC, 0xDD], 12⟩
      = .ok ⟨[0xC0, 0xDB, 0xDC, 0xDB, 0xDD, 0xDC, 0xDD, 0xC0], 12⟩ :=
  ⟨by decide, C3_amended 12 (by decide)⟩

/-- Claim C4: `SlipDecoder::insert(value)` returns an error if and only if the
decoder is in the `End` state, or it is in the `Escape` state and `value` is
neither `ESC_END_CHAR` nor `ESC_ESC_CHAR`, or the transition must push a byte
into the internal buffer (a plain byte in `Append`, or a valid escape code in
`Escape`) and the buffer is at full capacity.  In particular, feeding
`0xC0, 0xDB, 0x00` to a fresh decoder errors on the third byte. -/
theorem C4_insert_error_iff :
    (∀ (d : SlipDecoder) (v : Nat),
      (SlipDecoder.insert d v).snd = false ↔
        (d.state = .End ∨
          (d.state = .Escape ∧ v ≠ ESC_END_CHAR ∧ v ≠ ESC_ESC_CHAR) ∨
          (d.state = .Escape ∧ (v = ESC_END_CHAR ∨ v = ESC_ESC_CHAR) ∧
            ¬ d.buffer.data.length < d.buffer.cap) ∨
          (d.state = .Append ∧ v ≠ END_CHAR ∧ v ≠ ESC_CHAR ∧
            ¬ d.buffer.data.length < d.buffer.cap))) ∧
    SlipDecoder.insertAll ⟨.Start, ⟨[], 4⟩⟩ [0xC0, 0xDB] = (⟨.Escape, ⟨[], 4⟩⟩, true) ∧
    (SlipDecoder.insertAll ⟨.Start, ⟨[], 4⟩⟩ [0xC0, 0xDB, 0x00]).snd = false := by
  refine ⟨?_, rfl, rfl⟩
  intro d v
  obtain ⟨s, data, cap⟩ := d
  cases s
  · by_cases hv : v = END_CHAR <;> simp [SlipDecoder.insert, hv]
  · simp [SlipDecoder.insert]
  · by_cases hv : v = END_CHAR
    · simp [SlipDecoder.insert, hv]
    · by_cases hv2 : v = ESC_CHAR
      · simp [SlipDecoder.insert, hv, hv2,
          show ESC_CHAR ≠ END_CHAR from by decide]
      · by_cases hroom : data.length < cap <;>
          simp [SlipDecoder.insert, hv, hv2, Vec.push, hroom]
  · by_cases hv : v = ESC_END_CHAR
    · by_cases hroom : data.length < cap <;>
        simp [SlipDecoder.insert, hv, Vec.push, hroom]
    · by_cases hv2 : v = ESC_ESC_CHAR
      · by_cases hroom : data.length < cap <;>
          simp [SlipDecoder.insert, hv, hv2, Vec.push, hroom,
            show ESC_ESC_CHAR ≠ ESC_END_CHAR from by decide]
      · simp [SlipDecoder.insert, hv, hv2]

/-- Claim C5: terminal protection — in the `End` state every `insert` call,
with any byte, fails and leaves the decoder unchanged (so the failure persists
for any further byte sequence until `reset`); after `reset()` the state is
`Start`, the internal buffer is empty, and `is_buffer_completed()` is false. -/
theorem C5_terminal (buf : Vec) (v : Nat) (bytes : List Nat) (d : SlipDecoder) :
    SlipDecoder.insert ⟨.End, buf⟩ v = (⟨.End, buf⟩, false) ∧
    SlipDecoder.insertAll ⟨.End, buf⟩ (v :: bytes) = (⟨.End, buf⟩, false) ∧
    (SlipDecoder.reset d).state = .Start ∧
    (SlipDecoder.reset d).buffer.data = [] ∧
    (SlipDecoder.reset d).isBufferCompleted = false := by
  refine ⟨SlipDecoder.insert_End buf v, ?_, rfl, rfl, rfl⟩
  simp [SlipDecoder.insertAll, SlipDecoder.insert_End]

/-- Claim C6: presync — any byte other than `END_CHAR` fed to a decoder in the
`Start` state returns `Ok`, leaves the state `Start` and the buffer untouched;
hence any sequence of non-`END_CHAR` bytes before the first `END_CHAR` is
silently discarded. -/
theorem C6_presync (buf : Vec) (v : Nat) (l : List Nat)
    (hv : v ≠ END_CHAR) (hl : ∀ x ∈ l, x ≠ END_CHAR) :
    SlipDecoder.insert ⟨.Start, buf⟩ v = (⟨.Start, buf⟩, true) ∧
    SlipDecoder.insertAll ⟨.Start, buf⟩ l = (⟨.Start, buf⟩, true) := by
  refine ⟨SlipDecoder.insert_Start_other buf v hv, ?_⟩
  induction l with
  | nil => simp [SlipDecoder.insertAll]
  | cons b r ih =>
    have hb : b ≠ END_CHAR := hl b (by simp)
    simp only [SlipDecoder.insertAll, SlipDecoder.insert_Start_other buf b hb]
    exact ih (fun x hx => hl x (by simp [hx]))

theorem C6_presync_witness :
    (0x01 : Nat) ≠ END_CHAR ∧ (∀ x ∈ [0x00, 0x41, 0xDB], x ≠ END_CHAR) ∧
    SlipDecoder.insert ⟨.Start, ⟨[0x09], 2⟩⟩ 0x01 = (⟨.Start, ⟨[0x09], 2⟩⟩, true) ∧
    SlipDecoder.insertAll ⟨.Start, ⟨[0x09], 2⟩⟩ [0x00, 0x41, 0xDB]
      = (⟨.Start, ⟨[0x09], 2⟩⟩, true) := by
  refine ⟨by decide, by decide, ?_, ?_⟩ <;>
    exact (C6_presync ⟨[0x09], 2⟩ 0x01 [0x00, 0x41, 0xDB] (by decide) (by decide)).1

/-- Claim C7: escape decoding — in the `Escape` state, `insert ESC_END_CHAR`
appends `END_CHAR` to the buffer and moves to `Append`, and `insert
ESC_ESC_CHAR` appends `ESC_CHAR` and moves to `Append` (capacity permitting);
in particular decoding `0xC0, 0xDB, 0xDC, 0xC0` from a fresh decoder yields a
completed buffer equal to `[0xC0]`. -/
theorem C7_escape_decode (data : List Nat) (cap : Nat) (hroom : data.length < cap) :
    SlipDecoder.insert ⟨.Escape, ⟨data, cap⟩⟩ ESC_END_CHAR
      = (⟨.Append, ⟨data ++ [END_CHAR], cap⟩⟩, true) ∧
    SlipDecoder.insert ⟨.Escape, ⟨data, cap⟩⟩ ESC_ESC_CHAR
      = (⟨.Append, ⟨data ++ [ESC_CHAR], cap⟩⟩, true) ∧
    SlipDecoder.insertAll ⟨.Start, ⟨[], 1⟩⟩ [0xC0, 0xDB, 0xDC, 0xC0]
      = (⟨.End, ⟨[0xC0], 1⟩⟩, true) ∧
    SlipDecoder.isBufferCompleted ⟨.End, ⟨[0xC0], 1⟩⟩ = true :=
  ⟨SlipDecoder.insert_Escape_escEnd data cap hroom,
    SlipDecoder.insert_Escape_escEsc data cap hroom, rfl, rfl⟩

theorem C7_escape_decode_witness :
    List.length ([] : List Nat) < 1 ∧
    SlipDecoder.insert ⟨.Escape, ⟨[], 1⟩⟩ ESC_END_CHAR
      = (⟨.Append, ⟨[END_CHAR], 1⟩⟩, true) :=
  ⟨by decide, (C7_escape_decode [] 1 (by decide)).1⟩

/-- Claim C8: encode failure is not atomic — there is a payload and a capacity
for which `SlipEncoder::encode` fails with a capacity error and the buffer it
leaves behind differs from the original payload (a partially transformed
state, not a rollback). -/
theorem C8_encode_not_atomic :
    ∃ (p : List Nat) (cap : Nat) (w : Vec),
      encode ⟨p, cap⟩ = .error w ∧ w.data ≠ p := by
  refine ⟨[0xC0], 2, ⟨[0xC0, 0xC0], 2⟩, ?_, by decide⟩
  simp [encode, encodeLoop, Vec.insert, Vec.write, END_CHAR, ESC_CHAR,
    ESC_END_CHAR, ESC_ESC_CHAR]

/-- Claim C9: after the invalid-escape-sequence error (decoder in `Escape`
receives a byte that is neither `ESC_END_CHAR` nor `ESC_ESC_CHAR`) the state is
`Append`, not `Escape` — the transition to `Append` happens before the escape
byte is validated — so a following `insert` of a plain byte succeeds and
appends it, without an intervening reset. -/
theorem C9_escape_error_state (data : List Nat) (cap : Nat) (v w : Nat)
    (hv1 : v ≠ ESC_END_CHAR) (hv2 : v ≠ ESC_ESC_CHAR)
    (hw1 : w ≠ END_CHAR) (hw2 : w ≠ ESC_CHAR) (hroom : data.length < cap) :
    SlipDecoder.insert ⟨.Escape, ⟨data, cap⟩⟩ v = (⟨.Append, ⟨data, cap⟩⟩, false) ∧
    SlipDecoder.insert ⟨.Append, ⟨data, cap⟩⟩ w
      = (⟨.Append, ⟨data ++ [w], cap⟩⟩, true) :=
  ⟨SlipDecoder.insert_Escape_invalid ⟨data, cap⟩ v hv1 hv2,
    SlipDecoder.insert_Append_other data cap w hw1 hw2 hroom⟩

theorem C9_escape_error_state_witness :
    (0x00 : Nat) ≠ ESC_END_CHAR ∧ (0x00 : Nat) ≠ ESC_ESC_CHAR ∧
    (0x05 : Nat) ≠ END_CHAR ∧ (0x05 : Nat) ≠ ESC_CHAR ∧
    List.length ([] : List Nat) < 1 ∧
    (SlipDecoder.insert ⟨.Escape, ⟨[], 1⟩⟩ 0x00 = (⟨.Append, ⟨[], 1⟩⟩, false) ∧
      SlipDecoder.insert ⟨.Append, ⟨[], 1⟩⟩ 0x05 = (⟨.Append, ⟨[0x05], 1⟩⟩, true)) :=
  ⟨by decide, by decide, by decide, by decide, by decide,
    C9_escape_error_state [] 1 0x00 0x05 (by decide) (by decide) (by decide)
      (by decide) (by decide)⟩

/-- Claim C10: `get_buffer` (and the `Deref` implementation, which forwards to
it) is total in every decoder state, returning exactly the bytes pushed so
far — each `insert` call only ever appends at most one byte to what
`get_buffer` returns, so before completion it returns the partial payload
rather than failing. -/
theorem C10_getBuffer :
    (∀ d : SlipDecoder, SlipDecoder.getBuffer d = d.buffer.data) ∧
    (∀ d : SlipDecoder, SlipDecoder.derefBuffer d = SlipDecoder.getBuffer d) ∧
    (∀ (d : SlipDecoder) (v : Nat), ∃ t : List Nat,
      SlipDecoder.getBuffer (SlipDecoder.insert d v).fst
        = SlipDecoder.getBuffer d ++ t ∧ t.length ≤ 1) := by
  refine ⟨fun d => rfl, fun d => rfl, ?_⟩
  intro d v
  obtain ⟨s, data, cap⟩ := d
  cases s
  · by_cases hv : v = END_CHAR
    · exact ⟨[], by simp [SlipDecoder.insert, hv, SlipDecoder.getBuffer]⟩
    · exact ⟨[], by simp [SlipDecoder.insert, hv, SlipDecoder.getBuffer]⟩
  · exact ⟨[], by simp [SlipDecoder.insert, SlipDecoder.getBuffer]⟩
  · by_cases hv : v = END_CHAR
    · exact ⟨[], by simp [SlipDecoder.insert, hv, SlipDecoder.getBuffer]⟩
    · by_cases hv2 : v = ESC_CHAR
      · exact ⟨[], by simp [SlipDecoder.insert, hv, hv2, SlipDecoder.getBuffer,
          show ESC_CHAR ≠ END_CHAR from by decide]⟩
      · by_cases hroom : data.length < cap
        · exact ⟨[v], by
            simp [SlipDecoder.insert, hv, hv2, Vec.push, hroom, SlipDecoder.getBuffer]⟩
        · exact ⟨[], by
            simp [SlipDecoder.insert, hv, hv2, Vec.push, hroom, SlipDecoder.getBuffer]⟩
  · by_cases hv : v = ESC_END_CHAR
    · by_cases hroom : data.length < cap
      · exact ⟨[END_CHAR], by
          simp [SlipDecoder.insert, hv, Vec.push, hroom, SlipDecoder.getBuffer]⟩
      · exact ⟨[], by
          simp [SlipDecoder.insert, hv, Vec.push, hroom, SlipDecoder.getBuffer]⟩
    · by_cases hv2 : v = ESC_ESC_CHAR
      · by_cases hroom : data.length < cap
        · exact ⟨[ESC_CHAR], by
            simp [SlipDecoder.insert, hv, hv2, Vec.push, hroom, SlipDecoder.getBuffer,
              show ESC_ESC_CHAR ≠ ESC_END_CHAR from by decide]⟩
        · exact ⟨[], by
            simp [SlipDecoder.insert, hv, hv2, Vec.push, hroom, SlipDecoder.getBuffer,
              show ESC_ESC_CHAR ≠ ESC_END_CHAR from by decide]⟩
      · exact ⟨[], by simp [SlipDecoder.insert, hv, hv2, SlipDecoder.getBuffer]⟩


end NoallocSlip
